import Mathlib

/-!
Verification of the `recently-used-xbel` library (pop-os).

The Rust data model of `src/lib.rs` is embedded as Lean structures, the pure
core of `update_recently_used` (the merge of one file-access event into the
parsed registry, `src/lib.rs` lines 197-291) as `update_core`, and the
explicit tree-walking XML writer `custom_write` of `src/custom_writer.rs` as
a builder of an XML element tree together with a renderer to a string that
mirrors the behaviour of `quick_xml::writer::Writer` (attribute escaping,
self-closing empty elements, no indentation, no XML declaration).

Machine integers: `Application.count` is a Rust `u32`; it is modelled as a
`Nat` and the increment `count += 1` as `(count + 1) % 2 ^ 32`.
-/

/-- `Application` of `src/lib.rs`: an application that accessed the bookmark.
`count` is a `u32` in the source, modelled as `Nat` (always `< 2 ^ 32`). -/
structure Application where
  name : String
  exec : String
  modified : String
  count : Nat
deriving DecidableEq, Repr

/-- `Applications` of `src/lib.rs`: list of applications that accessed the bookmark. -/
structure Applications where
  applications : List Application
deriving DecidableEq, Repr

/-- `MimeType` of `src/lib.rs`. -/
structure MimeType where
  mime_type : String
deriving DecidableEq, Repr

/-- `Metadata` of `src/lib.rs`. -/
structure Metadata where
  owner : String
  mime_type : Option MimeType
  applications : Applications
deriving DecidableEq, Repr

/-- `Info` of `src/lib.rs`: wraps exactly one `Metadata`. -/
structure Info where
  metadata : Metadata
deriving DecidableEq, Repr

/-- `Bookmark` of `src/lib.rs`. -/
structure Bookmark where
  href : String
  added : String
  modified : String
  visited : String
  info : Option Info
deriving DecidableEq, Repr

/-- `RecentlyUsed` of `src/lib.rs`: the registry, an ordered list of bookmarks. -/
structure RecentlyUsed where
  bookmarks : List Bookmark
deriving DecidableEq, Repr

/-- Model of `Vec::retain` with the `removed = Some(el.clone())` side channel
used twice in `update_recently_used`: returns the retained elements in order
together with the LAST element for which `keep` was false (each removal
overwrites the `removed` variable as `retain` walks the vector front to back). -/
def retain_track (keep : α → Bool) : List α → List α × Option α
  | [] => ([], none)
  | x :: xs =>
    let r := retain_track keep xs
    if keep x then (x :: r.1, r.2) else (r.1, some (r.2.getD x))

/-- The owner string hard-coded in the new-bookmark branch of
`update_recently_used` (`src/lib.rs` line 273). -/
def freedesktopOwner : String := "http://freedesktop.org"

/-- The pure core of `update_recently_used` (`src/lib.rs` lines 197-291):
the transformation applied to the parsed registry once `href`, the three
timestamps (`added`, `modified`, `visited`, strings from
`system_time_to_string`), and the optional mime inference have been computed.

Mirrors the source: `retain` removes every bookmark whose `href` matches,
remembering the last removed one; if one was removed, its timestamps are
overwritten and (only when `info` is present) its application list gets the
same retain-then-push treatment keyed on the application name; otherwise a
brand-new bookmark is built. The resulting bookmark is pushed at the end. -/
def update_core (registry : RecentlyUsed) (href added modified visited : String)
    (app_name exec : String) (mime : Option String) : RecentlyUsed :=
  let r := retain_track (fun b => b.href != href) registry.bookmarks
  let new_bookmark : Bookmark :=
    match r.2 with
    | some old_bookmark =>
      let old_bookmark :=
        { old_bookmark with added := added, modified := modified, visited := visited }
      match old_bookmark.info with
      | some info =>
        let ra := retain_track (fun el => el.name != app_name)
          info.metadata.applications.applications
        let new_apps :=
          match ra.2 with
          | some removed => ra.1 ++ [{ removed with count := (removed.count + 1) % 2 ^ 32 }]
          | none => ra.1 ++ [{ name := app_name, exec := exec, modified := modified, count := 1 }]
        { old_bookmark with
          info := some { metadata := { info.metadata with
            applications := { applications := new_apps } } } }
      | none => old_bookmark
    | none =>
      { href := href, added := added, modified := modified, visited := visited,
        info := some { metadata :=
          { owner := freedesktopOwner,
            mime_type := mime.map MimeType.mk,
            applications := { applications :=
              [{ name := app_name, exec := exec, modified := modified, count := 1 }] } } } }
  { bookmarks := r.1 ++ [new_bookmark] }

/-! ### Decimal rendering of `u32` values

`custom_write` renders `app.count` with Rust's `u32::to_string()`, standard
decimal notation. `decAux` is the digit loop with explicit fuel (10 digits
suffice for any `u32`, since `2 ^ 32 < 10 ^ 10`). -/

/-- The character for a single decimal digit (`d < 10`). -/
def digitChar (d : Nat) : Char :=
  match d with
  | 0 => '0' | 1 => '1' | 2 => '2' | 3 => '3' | 4 => '4'
  | 5 => '5' | 6 => '6' | 7 => '7' | 8 => '8' | _ => '9'

/-- The numeric value of a decimal digit character. -/
def charDigit (c : Char) : Nat := c.toNat - 48

/-- Digits of `n` in order, most significant first; `fuel` bounds recursion depth. -/
def decAux : Nat → Nat → List Char
  | 0, _ => []
  | fuel + 1, n => if n = 0 then [] else decAux fuel (n / 10) ++ [digitChar (n % 10)]

/-- Rust `u32::to_string()`: decimal rendering of a `u32` value (`n < 2 ^ 32`). -/
def u32_to_string (n : Nat) : String :=
  if n = 0 then "0" else (decAux 10 n).asString

/-- Parsing of a `u32` attribute value from its decimal text, as the reader
must do for the `count` attribute: all characters decimal digits, value in
`u32` range. -/
def parse_u32 (s : String) : Option Nat :=
  match s.toList with
  | [] => none
  | cs =>
    if cs.all Char.isDigit then
      let n := cs.foldl (fun acc c => acc * 10 + charDigit c) 0
      if n < 2 ^ 32 then some n else none
    else none

/-! ### XML element trees and the `quick_xml` writer behaviour

`custom_write` (`src/custom_writer.rs`) drives a `quick_xml::writer::Writer`
over a fixed element tree: `create_element` + `with_attributes` +
`write_inner_content` produce `<name k="v" ...>children</name>` and
`write_empty` produces a self-closing `<name k="v" .../>`. The writer is
constructed without indentation, writes no XML declaration, and escapes
attribute values (`Attribute::from((&str, &str))` escapes the value). -/

/-- An XML element: name, attributes in order, whether it is written
self-closing (`write_empty`), and child elements (no text content is ever
written by `custom_write`). -/
inductive Xml where
  | elem (name : String) (attrs : List (String × String)) (selfClosing : Bool)
      (children : List Xml)

/-- The apostrophe character (code 39). -/
def aposChar : Char := Char.ofNat 39

/-- The double-quote character (code 34). -/
def quotChar : Char := Char.ofNat 34

/-- `quick_xml`'s attribute-value escaping (`escape`): the five XML special
characters are replaced by entity references. -/
def xmlEscapeChar (c : Char) : String :=
  if c = '&' then "&amp;"
  else if c = '<' then "&lt;"
  else if c = '>' then "&gt;"
  else if c = aposChar then "&apos;"
  else if c = quotChar then "&quot;"
  else String.singleton c

/-- Escape a whole attribute value. -/
def xmlEscape (s : String) : String := String.join (s.toList.map xmlEscapeChar)

/-- Render an attribute list: a space, the raw key, `="`, the escaped value, `"`. -/
def renderAttrs : List (String × String) → String
  | [] => ""
  | (k, v) :: rest => " " ++ k ++ "=\"" ++ xmlEscape v ++ "\"" ++ renderAttrs rest

mutual

/-- Render an element tree exactly as `quick_xml::writer::Writer` (no
indentation) serializes the events emitted by `custom_write`. -/
def renderXml : Xml → String
  | .elem n attrs true _ => "<" ++ n ++ renderAttrs attrs ++ "/>"
  | .elem n attrs false children =>
    "<" ++ n ++ renderAttrs attrs ++ ">" ++ renderXmlList children ++ "</" ++ n ++ ">"

/-- Render a list of sibling elements in order. -/
def renderXmlList : List Xml → String
  | [] => ""
  | x :: xs => renderXml x ++ renderXmlList xs

end

/-! ### The tree built by `custom_write` (`src/custom_writer.rs` lines 12-84) -/

/-- One `bookmark:application` element: self-closing, attributes in the fixed
order `name, exec, modified, count` (lines 60-71). -/
def applicationXml (app : Application) : Xml :=
  .elem "bookmark:application"
    [("name", app.name), ("exec", app.exec), ("modified", app.modified),
     ("count", u32_to_string app.count)] true []

/-- The `bookmark:applications` wrapper (lines 56-74). -/
def applicationsXml (apps : Applications) : Xml :=
  .elem "bookmark:applications" [] false (apps.applications.map applicationXml)

/-- The `metadata` element: `owner` attribute, optional self-closing
`mime:mime-type` child, then the applications wrapper (lines 43-76). -/
def metadataXml (m : Metadata) : Xml :=
  .elem "metadata" [("owner", m.owner)] false
    ((match m.mime_type with
      | some mt => [Xml.elem "mime:mime-type" [("type", mt.mime_type)] true []]
      | none => []) ++ [applicationsXml m.applications])

/-- The `info` element wrapping `metadata` (lines 40-78). -/
def infoXml (i : Info) : Xml := .elem "info" [] false [metadataXml i.metadata]

/-- One `bookmark` element: attributes in the fixed order
`href, added, modified, visited`; the `info` child only when present
(lines 30-81). -/
def bookmarkXml (b : Bookmark) : Xml :=
  .elem "bookmark"
    [("href", b.href), ("added", b.added), ("modified", b.modified),
     ("visited", b.visited)]
    false (match b.info with | some i => [infoXml i] | none => [])

/-- The `xbel` root element with `version` and the two fixed namespace
declarations (lines 12-27). -/
def xbelXml (r : RecentlyUsed) : Xml :=
  .elem "xbel"
    [("version", "1.0"),
     ("xmlns:bookmark", "http://www.freedesktop.org/standards/desktop-bookmarks"),
     ("xmlns:mime", "http://www.freedesktop.org/standards/shared-mime-info")]
    false (r.bookmarks.map bookmarkXml)

/-- `custom_write` (`src/custom_writer.rs`): build the tree and render it.
The trailing `String::from_utf8` of the source cannot fail on input that is
already a Rust `String`, so the function is total here. -/
def custom_write (r : RecentlyUsed) : String := renderXml (xbelXml r)

/-- The XML declaration the spec requires the output to start with. -/
def xmlDecl : String := "<?xml version=\"1.0\" encoding=\"UTF-8\"?>"

/-! ### The reader, modelled from the spec

`parse_file` (`src/lib.rs` lines 149-153) delegates deserialization to the
external `quick_xml` serde deserializer, which is not part of this
repository's sources. The reader is therefore modelled from the spec
(§4.3 Reader), at the level of the XML element tree, with the namespaced
element names the Writer contract of §4.3/§6 fixes. -/

/-- First attribute with the given key. -/
def lookupAttr (k : String) (attrs : List (String × String)) : Option String :=
  (attrs.find? (fun a => a.1 == k)).map Prod.snd

/-- First child element with the given name. -/
def childNamed (nm : String) : List Xml → Option Xml
  | [] => none
  | x :: xs => match x with
    | .elem n _ _ _ => if n = nm then some x else childNamed nm xs

/-- Parse every element of a list, failing if any single parse fails. -/
def parseAll (p : Xml → Option α) : List Xml → Option (List α)
  | [] => some []
  | x :: xs =>
    match p x, parseAll p xs with
    | some a, some rest => some (a :: rest)
    | _, _ => none

/-- Modelled from the spec: reader for one `application` element (required
attributes `name`, `exec`, `modified`, `count`; missing required attributes
are a parse error). -/
def parseApplication (x : Xml) : Option Application :=
  match x with
  | .elem n attrs _ _ =>
    if n = "bookmark:application" then
      match lookupAttr "name" attrs, lookupAttr "exec" attrs,
            lookupAttr "modified" attrs, lookupAttr "count" attrs with
      | some nm, some ex, some mo, some ct =>
        (parse_u32 ct).map (fun c => { name := nm, exec := ex, modified := mo, count := c })
      | _, _, _, _ => none
    else none

/-- Modelled from the spec: reader for the `mime-type` element (required
`type` attribute). -/
def parseMimeType (x : Xml) : Option MimeType :=
  match x with
  | .elem n attrs _ _ =>
    if n = "mime:mime-type" then (lookupAttr "type" attrs).map MimeType.mk else none

/-- Modelled from the spec: reader for the `applications` wrapper. -/
def parseApplications (x : Xml) : Option Applications :=
  match x with
  | .elem n _ _ children =>
    if n = "bookmark:applications" then
      (parseAll parseApplication children).map Applications.mk
    else none

/-- Modelled from the spec: reader for the `metadata` element (required
`owner` attribute; a missing `mime-type` element maps to `none`, a missing
`applications` element maps to the empty collection, never to an error). -/
def parseMetadata (x : Xml) : Option Metadata :=
  match x with
  | .elem n attrs _ children =>
    if n = "metadata" then
      match lookupAttr "owner" attrs with
      | some ow =>
        let mt : Option (Option MimeType) :=
          match childNamed "mime:mime-type" children with
          | some mx => (parseMimeType mx).map some
          | none => some none
        let apps : Option Applications :=
          match childNamed "bookmark:applications" children with
          | some ax => parseApplications ax
          | none => some { applications := [] }
        match mt, apps with
        | some m, some a => some { owner := ow, mime_type := m, applications := a }
        | _, _ => none
      | none => none
    else none

/-- Modelled from the spec: reader for the `info` element, which wraps
exactly one `metadata`. -/
def parseInfo (x : Xml) : Option Info :=
  match x with
  | .elem n _ _ children =>
    if n = "info" then
      match childNamed "metadata" children with
      | some mx => (parseMetadata mx).map Info.mk
      | none => none
    else none

/-- Modelled from the spec: reader for one `bookmark` element (required
attributes `href`, `added`, `modified`, `visited`; missing optional `info`
maps to `none`). -/
def parseBookmark (x : Xml) : Option Bookmark :=
  match x with
  | .elem n attrs _ children =>
    if n = "bookmark" then
      match lookupAttr "href" attrs, lookupAttr "added" attrs,
            lookupAttr "modified" attrs, lookupAttr "visited" attrs with
      | some h, some a, some m, some v =>
        match childNamed "info" children with
        | some ix => (parseInfo ix).map (fun i =>
            { href := h, added := a, modified := m, visited := v, info := some i })
        | none => some { href := h, added := a, modified := m, visited := v, info := none }
      | _, _, _, _ => none
    else none

/-- Modelled from the spec: reader for the `xbel` root with zero or more
`bookmark` children. -/
def parseXbel (x : Xml) : Option RecentlyUsed :=
  match x with
  | .elem n _ _ children =>
    if n = "xbel" then (parseAll parseBookmark children).map RecentlyUsed.mk else none

/-- Every `count` stored in the registry is in `u32` range (true of any
registry parsed from a file, since the Rust field has type `u32`). -/
def countsOk (r : RecentlyUsed) : Bool :=
  r.bookmarks.all fun b =>
    match b.info with
    | none => true
    | some i => i.metadata.applications.applications.all fun app =>
        decide (app.count < 2 ^ 32)

/-! ### The error type and the effectful skeleton of `update_recently_used`

The fallible steps of `update_recently_used` (`src/lib.rs` lines 190-195 and
293-306) call external collaborators: `parse_file`, `path_to_href`
(`Url::from_file_path`), `fs::metadata` and the three timestamp accessors,
and the serializer. Their outcomes enter the model as parameters; `io::Error`
payloads are abstracted as `Nat` codes. -/

/-- The `Error` enum of `src/lib.rs` (payloads abstracted). -/
inductive XbelError where
  | doesNotExist
  | deserialization
  | serialization
  | read (e : Nat)
  | metadata (e : Nat)
  | path
  | update
deriving DecidableEq, Repr

/-- The decision structure of `update_recently_used` up to the merged
registry (`src/lib.rs` lines 190-291): parse, then href resolution
(`Error::Path` when the path yields no `file://` URI), then the metadata
call and the three timestamp reads (`Error::Metadata` on each failure), then
the pure merge. Matches the source's early-return order. -/
def update_recently_used
    (parse_result : Except XbelError RecentlyUsed)
    (href_result : Option String)
    (stat_result : Except Nat Unit)
    (created_result modified_result accessed_result : Except Nat String)
    (app_name exec : String)
    (mime : Option String) : Except XbelError RecentlyUsed :=
  match parse_result with
  | .error e => .error e
  | .ok parsed =>
    match href_result with
    | none => .error .path
    | some href =>
      match stat_result with
      | .error e => .error (.metadata e)
      | .ok _ =>
        match created_result with
        | .error e => .error (.metadata e)
        | .ok added =>
          match modified_result with
          | .error e => .error (.metadata e)
          | .ok modified =>
            match accessed_result with
            | .error e => .error (.metadata e)
            | .ok visited =>
              .ok (update_core parsed href added modified visited app_name exec mime)

/-- The read-modify-write cycle on the registry file's content: on any
failure before the final write (including the failures of
`update_recently_used`'s early returns) the file content is unchanged; on
success the file is overwritten with the serialized registry. The serializer
(`quick_xml::se::to_string`, external) is a parameter. -/
def run_update (file_content : String)
    (serialize : RecentlyUsed → Except XbelError String)
    (parse_result : Except XbelError RecentlyUsed)
    (href_result : Option String)
    (stat_result : Except Nat Unit)
    (created_result modified_result accessed_result : Except Nat String)
    (app_name exec : String)
    (mime : Option String) : String × Except XbelError Unit :=
  match update_recently_used parse_result href_result stat_result
      created_result modified_result accessed_result app_name exec mime with
  | .error e => (file_content, .error e)
  | .ok reg =>
    match serialize reg with
    | .error e => (file_content, .error e)
    | .ok s => (s, .ok ())

/-! ### Derived characterizations and invariants -/

/-- The application-list update of the found-bookmark branch
(`src/lib.rs` lines 211-254), as a standalone function: remove every
application with the event's name (remembering the last removed one), then
push either the removed application with its count incremented, or a fresh
entry with count 1. Proved below to agree with what `update_core` does. -/
def bump_apps (app_name exec modified : String) (apps : List Application) :
    List Application :=
  let ra := retain_track (fun el => el.name != app_name) apps
  match ra.2 with
  | some removed => ra.1 ++ [{ removed with count := (removed.count + 1) % 2 ^ 32 }]
  | none => ra.1 ++ [{ name := app_name, exec := exec, modified := modified, count := 1 }]

/-- The transformation the found-bookmark branch applies to the removed
bookmark (`src/lib.rs` lines 207-255): overwrite the three timestamps and,
only when `info` is present, rebuild its application list with `bump_apps`.
Proved below to agree with what `update_core` does. -/
def found_update (added modified visited app_name exec : String) (b : Bookmark) :
    Bookmark :=
  match b.info with
  | some info =>
    { b with
      added := added
      modified := modified
      visited := visited
      info := some { metadata := { info.metadata with
        applications := { applications := (bump_apps app_name exec modified
          info.metadata.applications.applications) } } } }
  | none => { b with added := added, modified := modified, visited := visited }

/-- The bookmark the not-found branch creates (`src/lib.rs` lines 257-288). -/
def fresh_bookmark (href added modified visited app_name exec : String)
    (mime : Option String) : Bookmark :=
  { href := href, added := added, modified := modified, visited := visited,
    info := some { metadata :=
      { owner := freedesktopOwner,
        mime_type := mime.map MimeType.mk,
        applications := { applications :=
          [{ name := app_name, exec := exec, modified := modified, count := 1 }] } } } }

/-- No two elements of the list share the same key `f`. -/
def pairwiseKeysDistinct (f : α → String) : List α → Bool
  | [] => true
  | x :: xs => xs.all (fun y => f x != f y) && pairwiseKeysDistinct f xs

/-- No two applications under this bookmark share a name. -/
def bookmarkAppsOk (b : Bookmark) : Bool :=
  match b.info with
  | none => true
  | some i => pairwiseKeysDistinct (fun a => a.name) i.metadata.applications.applications

/-- The key-uniqueness invariant of §3/§8: no two bookmarks share an `href`
and no two applications under one bookmark share a `name`. -/
def registryInv (r : RecentlyUsed) : Bool :=
  pairwiseKeysDistinct (fun b => b.href) r.bookmarks && r.bookmarks.all bookmarkAppsOk

/-- One recorded access event, with the collaborator-computed inputs of the
pure merge: resolved href, the three timestamps, application name, exec
command, and the optional inferred mime type. -/
structure AccessEvent where
  href : String
  added : String
  modified : String
  visited : String
  app_name : String
  exec : String
  mime : Option String

/-- Apply the merge of `update_recently_used` for one event. -/
def applyEvent (r : RecentlyUsed) (e : AccessEvent) : RecentlyUsed :=
  update_core r e.href e.added e.modified e.visited e.app_name e.exec e.mime

/-- Apply a sequence of recorded accesses starting from a registry. -/
def applyEvents (r : RecentlyUsed) (events : List AccessEvent) : RecentlyUsed :=
  events.foldl applyEvent r

/-! ### The writer schema contract, modelled from the spec (§4.3 Writer) -/

/-- Modelled from the spec: one `application` element is a self-closing
namespaced element with attributes in the fixed order
`name, exec, modified, count`, carrying this application's data. -/
def AppElemSpec (app : Application) (x : Xml) : Prop :=
  match x with
  | .elem n attrs sc children =>
    n = "bookmark:application" ∧
    attrs = [("name", app.name), ("exec", app.exec), ("modified", app.modified),
             ("count", u32_to_string app.count)] ∧
    sc = true ∧ children = []

/-- Modelled from the spec: the `metadata` element carries the `owner`
attribute, an optional self-closing namespaced mime-type element (omitted
exactly when absent), and a namespaced `applications` wrapper containing one
`application` element per Application, in order. -/
def MetadataElemSpec (m : Metadata) (x : Xml) : Prop :=
  match x with
  | .elem n attrs sc children =>
    n = "metadata" ∧ attrs = [("owner", m.owner)] ∧ sc = false ∧
    ∃ appsChildren : List Xml,
      List.Forall₂ AppElemSpec m.applications.applications appsChildren ∧
      (match m.mime_type with
       | none =>
         children = [Xml.elem "bookmark:applications" [] false appsChildren]
       | some mt =>
         children = [Xml.elem "mime:mime-type" [("type", mt.mime_type)] true [],
                     Xml.elem "bookmark:applications" [] false appsChildren])

/-- Modelled from the spec: each Bookmark is rendered as an element with
attributes in the fixed order `href, added, modified, visited`; when `info`
is present a nested `info`/`metadata` structure follows, and when it is
absent no placeholder element is emitted. -/
def BookmarkElemSpec (b : Bookmark) (x : Xml) : Prop :=
  match x with
  | .elem n attrs sc children =>
    n = "bookmark" ∧
    attrs = [("href", b.href), ("added", b.added), ("modified", b.modified),
             ("visited", b.visited)] ∧
    sc = false ∧
    (match b.info with
     | none => children = []
     | some i => ∃ mx : Xml, children = [Xml.elem "info" [] false [mx]] ∧
         MetadataElemSpec i.metadata mx)

/-- Modelled from the spec: the root element is `xbel` with `version="1.0"`
and the two fixed namespace declarations, containing one rendered element
per Bookmark, in order. -/
def WriterSchemaSpec (r : RecentlyUsed) (x : Xml) : Prop :=
  match x with
  | .elem n attrs sc children =>
    n = "xbel" ∧
    attrs = [("version", "1.0"),
             ("xmlns:bookmark", "http://www.freedesktop.org/standards/desktop-bookmarks"),
             ("xmlns:mime", "http://www.freedesktop.org/standards/shared-mime-info")] ∧
    sc = false ∧
    List.Forall₂ BookmarkElemSpec r.bookmarks children

/-- The opening tag of the root element, as `custom_write` renders it. -/
def xbelOpenTag : String :=
  "<xbel version=\"1.0\" xmlns:bookmark=\"http://www.freedesktop.org/standards/desktop-bookmarks\" xmlns:mime=\"http://www.freedesktop.org/standards/shared-mime-info\">"

/-! ### Concrete sample data for counterexamples and witnesses -/

/-- A registry with one bookmark whose single application was recorded at
timestamp `M1`. -/
def sampleReg1 : RecentlyUsed :=
  { bookmarks := [
    { href := "file:///tmp/a.txt", added := "A1", modified := "M1", visited := "V1",
      info := some { metadata :=
        { owner := "http://freedesktop.org",
          mime_type := some { mime_type := "text/plain" },
          applications := { applications :=
            [{ name := "org.app", exec := "run-a", modified := "M1", count := 1 }] } } } }] }

/-- A registry with two bookmarks, the target of the update first. -/
def sampleReg2 : RecentlyUsed :=
  { bookmarks := [
    { href := "file:///tmp/a.txt", added := "A1", modified := "M1", visited := "V1",
      info := none },
    { href := "file:///tmp/b.txt", added := "B1", modified := "N1", visited := "W1",
      info := none }] }

section RetainTrackLemmas

variable {α : Type} (keep : α → Bool)

theorem retain_track_fst (l : List α) :
    (retain_track keep l).1 = l.filter keep := by
  induction l with
  | nil => rfl
  | cons x xs ih =>
    simp only [retain_track, List.filter]
    cases h : keep x <;> simp [h, ih]

theorem retain_track_snd (l : List α) :
    (retain_track keep l).2 = (l.filter (fun x => ! keep x)).getLast? := by
  induction l with
  | nil => rfl
  | cons x xs ih =>
    simp only [retain_track, List.filter]
    cases h : keep x
    · simp only [h, Bool.not_false, if_neg Bool.false_ne_true]
      rw [ih]
      cases hf : xs.filter (fun x => ! keep x) with
      | nil => simp
      | cons y ys =>
        rw [List.getLast?_eq_getLast (y :: ys) (by simp), List.getLast?_cons_cons,
          List.getLast?_eq_getLast (y :: ys) (by simp)]
        simp
    · simp [h, ih]

end RetainTrackLemmas

-- Sanity checks of the embedding on concrete data.
example : retain_track (fun n => n != 2) [1, 2, 3, 2, 4] = ([1, 3, 4], some 2) := by decide

example :
    (update_core { bookmarks := [] } "file:///tmp/a.txt" "A" "M" "V" "org.test" "test"
      (some "text/plain")).bookmarks =
    [{ href := "file:///tmp/a.txt", added := "A", modified := "M", visited := "V",
       info := some { metadata :=
        { owner := "http://freedesktop.org",
          mime_type := some { mime_type := "text/plain" },
          applications := { applications :=
            [{ name := "org.test", exec := "test", modified := "M", count := 1 }] } } } }] := by
  decide

/-! ### Key-uniqueness filter lemmas -/

section KeyLemmas

variable {α : Type} (f : α → String)

theorem filter_keep_of_no_match {k : String} {l : List α}
    (h : ∀ x ∈ l, f x ≠ k) : l.filter (fun x => f x != k) = l := by
  rw [List.filter_eq_self]
  intro a ha
  simpa [bne_iff_ne] using h a ha

theorem filter_drop_of_no_match {k : String} {l : List α}
    (h : ∀ x ∈ l, f x ≠ k) : l.filter (fun x => ! (f x != k)) = [] := by
  rw [List.filter_eq_nil_iff]
  intro a ha
  simpa [bne_iff_ne] using h a ha

theorem filter_drop_of_unique {k : String} {l : List α}
    (hp : l.Pairwise (fun x y => f x ≠ f y)) {b : α} (hb : b ∈ l) (hk : f b = k) :
    l.filter (fun x => ! (f x != k)) = [b] := by
  induction l with
  | nil => cases hb
  | cons x xs ih =>
    rcases List.pairwise_cons.mp hp with ⟨hx, hxs⟩
    rcases List.mem_cons.mp hb with rfl | hmem
    · have hxs' : xs.filter (fun y => ! (f y != k)) = [] := by
        apply filter_drop_of_no_match
        intro a ha
        rw [← hk]
        exact fun hcontra => hx a ha hcontra.symm
      simp [List.filter, hk, hxs']
    · have hne : f x ≠ k := hk ▸ hx b hmem
      simp only [List.filter]
      rw [show (! (f x != k)) = false by simp [bne_iff_ne]; exact hne]
      exact ih hxs hmem

end KeyLemmas

/-! ### Characterization of `update_core` -/

/-- `update_core` in terms of `filter`, `getLast?`, `found_update` and
`fresh_bookmark`. -/
theorem update_core_char (r : RecentlyUsed)
    (href added modified visited app_name exec : String) (mime : Option String) :
    update_core r href added modified visited app_name exec mime =
      { bookmarks := r.bookmarks.filter (fun b => b.href != href) ++
          [match (r.bookmarks.filter (fun b => ! (b.href != href))).getLast? with
           | some b => found_update added modified visited app_name exec b
           | none => fresh_bookmark href added modified visited app_name exec mime] } := by
  simp only [update_core]
  rw [retain_track_fst, retain_track_snd]
  cases hlast : (r.bookmarks.filter (fun b => ! (b.href != href))).getLast? with
  | none => rfl
  | some b =>
    cases hinfo : b.info with
    | none =>
      simp only [found_update, hinfo]
    | some info =>
      simp only [found_update, bump_apps, hinfo]

/-- The not-found branch: no existing bookmark matches, so every bookmark is
retained and the fresh bookmark is appended at the end. -/
theorem update_core_not_found (r : RecentlyUsed)
    (href added modified visited app_name exec : String) (mime : Option String)
    (h : ∀ b ∈ r.bookmarks, b.href ≠ href) :
    update_core r href added modified visited app_name exec mime =
      { bookmarks := r.bookmarks ++
          [fresh_bookmark href added modified visited app_name exec mime] } := by
  rw [update_core_char]
  have h1 : r.bookmarks.filter (fun b : Bookmark => b.href != href) = r.bookmarks :=
    filter_keep_of_no_match (fun b : Bookmark => b.href) h
  have h2 : r.bookmarks.filter (fun b : Bookmark => ! (b.href != href)) = [] :=
    filter_drop_of_no_match (fun b : Bookmark => b.href) h
  rw [h1, h2]
  rfl

/-- The found branch under href uniqueness: the matching bookmark `b` is
removed from its position and `found_update b` is appended at the end. -/
theorem update_core_found (r : RecentlyUsed)
    (href added modified visited app_name exec : String) (mime : Option String)
    (hp : r.bookmarks.Pairwise (fun x y => x.href ≠ y.href))
    {b : Bookmark} (hb : b ∈ r.bookmarks) (hk : b.href = href) :
    update_core r href added modified visited app_name exec mime =
      { bookmarks := r.bookmarks.filter (fun x => x.href != href) ++
          [found_update added modified visited app_name exec b] } := by
  rw [update_core_char]
  have h1 : r.bookmarks.filter (fun b : Bookmark => ! (b.href != href)) = [b] :=
    filter_drop_of_unique (fun b : Bookmark => b.href) hp hb hk
  rw [h1]
  rfl

/-! ### Boolean invariant lemmas -/

theorem pairwiseKeysDistinct_iff {α : Type} (f : α → String) (l : List α) :
    pairwiseKeysDistinct f l = true ↔ l.Pairwise (fun x y => f x ≠ f y) := by
  induction l with
  | nil => simp [pairwiseKeysDistinct]
  | cons x xs ih =>
    simp [pairwiseKeysDistinct, List.pairwise_cons, ih, List.all_eq_true, bne_iff_ne]

theorem registryInv_iff (r : RecentlyUsed) :
    registryInv r = true ↔
      (r.bookmarks.Pairwise (fun x y => x.href ≠ y.href) ∧
        ∀ b ∈ r.bookmarks, bookmarkAppsOk b = true) := by
  simp [registryInv, pairwiseKeysDistinct_iff, List.all_eq_true]

/-! ### Lemmas about `bump_apps` and `found_update` -/

theorem bump_apps_found (app_name exec modified : String) {apps : List Application}
    (hp : apps.Pairwise (fun x y => x.name ≠ y.name)) {a : Application}
    (ha : a ∈ apps) (hn : a.name = app_name) :
    bump_apps app_name exec modified apps =
      apps.filter (fun x => x.name != app_name) ++
        [{ a with count := (a.count + 1) % 2 ^ 32 }] := by
  simp only [bump_apps]
  rw [retain_track_fst, retain_track_snd]
  have h1 : apps.filter (fun x : Application => ! (x.name != app_name)) = [a] :=
    filter_drop_of_unique (fun x : Application => x.name) hp ha hn
  rw [h1]
  rfl

theorem bump_apps_not_found (app_name exec modified : String) {apps : List Application}
    (h : ∀ x ∈ apps, x.name ≠ app_name) :
    bump_apps app_name exec modified apps =
      apps ++ [{ name := app_name, exec := exec, modified := modified, count := 1 }] := by
  simp only [bump_apps]
  rw [retain_track_fst, retain_track_snd]
  have h1 : apps.filter (fun x : Application => x.name != app_name) = apps :=
    filter_keep_of_no_match (fun x : Application => x.name) h
  have h2 : apps.filter (fun x : Application => ! (x.name != app_name)) = [] :=
    filter_drop_of_no_match (fun x : Application => x.name) h
  rw [h1, h2]
  rfl

theorem found_update_href (added modified visited app_name exec : String)
    (b : Bookmark) :
    (found_update added modified visited app_name exec b).href = b.href := by
  cases h : b.info <;> simp [found_update, h]

theorem bump_apps_pairwise (app_name exec modified : String)
    {apps : List Application} (hp : apps.Pairwise (fun x y => x.name ≠ y.name)) :
    (bump_apps app_name exec modified apps).Pairwise (fun x y => x.name ≠ y.name) := by
  by_cases hex : ∃ a ∈ apps, a.name = app_name
  · obtain ⟨a, ha, hn⟩ := hex
    rw [bump_apps_found app_name exec modified hp ha hn]
    rw [List.pairwise_append]
    refine ⟨hp.sublist (List.filter_sublist _), by simp, ?_⟩
    intro x hx y hy
    rcases List.mem_filter.mp hx with ⟨-, hxname⟩
    rcases List.mem_singleton.mp hy with rfl
    simpa [bne_iff_ne, hn] using hxname
  · push_neg at hex
    rw [bump_apps_not_found app_name exec modified hex]
    rw [List.pairwise_append]
    refine ⟨hp, by simp, ?_⟩
    intro x hx y hy
    rcases List.mem_singleton.mp hy with rfl
    exact hex x hx

theorem bookmarkAppsOk_found_update (added modified visited app_name exec : String)
    {b : Bookmark} (h : bookmarkAppsOk b = true) :
    bookmarkAppsOk (found_update added modified visited app_name exec b) = true := by
  cases hinfo : b.info with
  | none => simp [found_update, bookmarkAppsOk, hinfo]
  | some i =>
    have hp : i.metadata.applications.applications.Pairwise (fun x y => x.name ≠ y.name) := by
      rw [← pairwiseKeysDistinct_iff]
      simpa [bookmarkAppsOk, hinfo] using h
    simp only [found_update, bookmarkAppsOk, hinfo]
    rw [pairwiseKeysDistinct_iff]
    exact bump_apps_pairwise app_name exec modified hp

/-- `update_core` preserves the key-uniqueness invariant. -/
theorem update_core_registryInv (r : RecentlyUsed)
    (href added modified visited app_name exec : String) (mime : Option String)
    (hinv : registryInv r = true) :
    registryInv (update_core r href added modified visited app_name exec mime) = true := by
  obtain ⟨hp, happs⟩ := (registryInv_iff r).mp hinv
  by_cases hex : ∃ b ∈ r.bookmarks, b.href = href
  · obtain ⟨b, hb, hk⟩ := hex
    rw [update_core_found r href added modified visited app_name exec mime hp hb hk]
    rw [registryInv_iff]
    constructor
    · rw [List.pairwise_append]
      refine ⟨hp.sublist (List.filter_sublist _), by simp, ?_⟩
      intro x hx y hy
      rcases List.mem_filter.mp hx with ⟨-, hxh⟩
      rcases List.mem_singleton.mp hy with rfl
      rw [found_update_href, hk]
      simpa [bne_iff_ne] using hxh
    · intro x hx
      rcases List.mem_append.mp hx with hx | hx
      · exact happs x (List.mem_of_mem_filter hx)
      · rcases List.mem_singleton.mp hx with rfl
        exact bookmarkAppsOk_found_update added modified visited app_name exec (happs b hb)
  · push_neg at hex
    rw [update_core_not_found r href added modified visited app_name exec mime hex]
    rw [registryInv_iff]
    constructor
    · rw [List.pairwise_append]
      refine ⟨hp, by simp, ?_⟩
      intro x hx y hy
      rcases List.mem_singleton.mp hy with rfl
      exact hex x hx
    · intro x hx
      rcases List.mem_append.mp hx with hx | hx
      · exact happs x hx
      · rcases List.mem_singleton.mp hx with rfl
        simp [bookmarkAppsOk, fresh_bookmark, pairwiseKeysDistinct]

/-! ### Claim theorems: the merge (`update_recently_used`'s pure core) -/

/-- C1, counterexample: the claim asserts that merging an event whose
`appName` matches an existing Application sets that Application's `modified`
to the freshly computed timestamp. On `sampleReg1` (existing application
recorded at `"M1"`) a merge with fresh timestamp `"M2"` leaves the
application's `modified` at `"M1"` (and only bumps `count` to 2), so the
claim is false: `src/lib.rs` lines 222-235 increment `count` but never
assign `modified` on the removed application. -/
theorem C1_counterexample :
    update_core sampleReg1 "file:///tmp/a.txt" "A2" "M2" "V2" "org.app" "run-b" none =
      { bookmarks := [
        { href := "file:///tmp/a.txt", added := "A2", modified := "M2", visited := "V2",
          info := some { metadata :=
            { owner := "http://freedesktop.org",
              mime_type := some { mime_type := "text/plain" },
              applications := { applications :=
                [{ name := "org.app", exec := "run-a", modified := "M1", count := 2 }] } } } }] }
    ∧ ("M1" : String) ≠ "M2" := by
  constructor
  · decide
  · decide

/-- C1 (amended): merging an event whose `appName` matches an existing
Application of the matched Bookmark increments that Application's `count` by
exactly 1 (as a `u32`) and leaves its `modified` (and `exec`) at their
previously stored values; consequently two merges with identical `href` and
`appName` starting from the empty registry yield one Bookmark with one
Application whose `count` is 2 and whose `modified` equals the FIRST call's
computed timestamp (not the second call's). -/
theorem C1_existing_app_increment :
    (∀ (r : RecentlyUsed) (href added modified visited app_name exec : String)
      (mime : Option String) (b : Bookmark) (i : Info) (a : Application),
      r.bookmarks.Pairwise (fun x y => x.href ≠ y.href) →
      b ∈ r.bookmarks → b.href = href →
      b.info = some i →
      i.metadata.applications.applications.Pairwise (fun x y => x.name ≠ y.name) →
      a ∈ i.metadata.applications.applications → a.name = app_name →
      ∃ (b' : Bookmark) (i' : Info),
        (update_core r href added modified visited app_name exec mime).bookmarks.getLast?
          = some b' ∧
        b'.info = some i' ∧
        i'.metadata.applications.applications.getLast?
          = some { a with count := (a.count + 1) % 2 ^ 32 }) ∧
    (∀ (href a1 m1 v1 a2 m2 v2 app_name e1 e2 : String) (mi1 mi2 : Option String),
      update_core (update_core { bookmarks := [] } href a1 m1 v1 app_name e1 mi1)
          href a2 m2 v2 app_name e2 mi2 =
        { bookmarks := [
          { href := href, added := a2, modified := m2, visited := v2,
            info := some { metadata :=
              { owner := "http://freedesktop.org",
                mime_type := mi1.map MimeType.mk,
                applications := { applications :=
                  [{ name := app_name, exec := e1, modified := m1, count := 2 }] } } } }] }) := by
  constructor
  · intro r href added modified visited app_name exec mime b i a hp hb hk hinfo hq ha hn
    refine ⟨found_update added modified visited app_name exec b,
      { metadata := { i.metadata with applications := { applications :=
          (bump_apps app_name exec modified i.metadata.applications.applications) } } },
      ?_, ?_, ?_⟩
    · rw [update_core_found r href added modified visited app_name exec mime hp hb hk]
      exact List.getLast?_concat _
    · simp [found_update, hinfo]
    · show (bump_apps app_name exec modified i.metadata.applications.applications).getLast? = _
      rw [bump_apps_found app_name exec modified hq ha hn]
      exact List.getLast?_concat _
  · intro href a1 m1 v1 a2 m2 v2 app_name e1 e2 mi1 mi2
    simp [update_core, retain_track, freedesktopOwner]

/-- C1, witness: the amended theorem applied to `sampleReg1`. -/
theorem C1_witness :
    ∃ (b' : Bookmark) (i' : Info),
      (update_core sampleReg1 "file:///tmp/a.txt" "A2" "M2" "V2" "org.app" "run-b"
        none).bookmarks.getLast? = some b' ∧
      b'.info = some i' ∧
      i'.metadata.applications.applications.getLast? =
        some { name := "org.app", exec := "run-a", modified := "M1",
               count := (1 + 1) % 2 ^ 32 } :=
  C1_existing_app_increment.1 sampleReg1 "file:///tmp/a.txt" "A2" "M2" "V2" "org.app"
    "run-b" none
    { href := "file:///tmp/a.txt", added := "A1", modified := "M1", visited := "V1",
      info := some { metadata :=
        { owner := "http://freedesktop.org",
          mime_type := some { mime_type := "text/plain" },
          applications := { applications :=
            [{ name := "org.app", exec := "run-a", modified := "M1", count := 1 }] } } } }
    { metadata :=
      { owner := "http://freedesktop.org",
        mime_type := some { mime_type := "text/plain" },
        applications := { applications :=
          [{ name := "org.app", exec := "run-a", modified := "M1", count := 1 }] } } }
    { name := "org.app", exec := "run-a", modified := "M1", count := 1 }
    (by decide) (by decide) (by decide) (by decide) (by decide) (by decide) (by decide)

/-- C2, counterexample: the claim asserts an existing Bookmark keeps its index
under the merge. In `sampleReg2` the target bookmark sits at index 0; after
the merge index 0 holds the OTHER bookmark and the updated target sits at the
end, because `src/lib.rs` lines 197-204 remove the matching bookmark with
`retain` and line 291 pushes the updated one at the end. -/
theorem C2_counterexample :
    sampleReg2.bookmarks[0]? =
      some { href := "file:///tmp/a.txt", added := "A1", modified := "M1",
             visited := "V1", info := none } ∧
    (update_core sampleReg2 "file:///tmp/a.txt" "A2" "M2" "V2" "org.app" "run"
        none).bookmarks =
      [{ href := "file:///tmp/b.txt", added := "B1", modified := "N1", visited := "W1",
         info := none },
       { href := "file:///tmp/a.txt", added := "A2", modified := "M2", visited := "V2",
         info := none }] ∧
    ("file:///tmp/a.txt" : String) ≠ "file:///tmp/b.txt" := by
  refine ⟨by decide, by decide, by decide⟩

/-- C2 (amended): the merge is move-to-end, not update-in-place: when a
Bookmark with the event's href exists (hrefs unique), it is removed from its
position and the updated bookmark is appended at the end; when none exists,
the brand-new Bookmark is likewise appended at the end. -/
theorem C2_move_to_end :
    (∀ (r : RecentlyUsed) (href added modified visited app_name exec : String)
      (mime : Option String) (b : Bookmark),
      r.bookmarks.Pairwise (fun x y => x.href ≠ y.href) →
      b ∈ r.bookmarks → b.href = href →
      (update_core r href added modified visited app_name exec mime).bookmarks =
        r.bookmarks.filter (fun x => x.href != href) ++
          [found_update added modified visited app_name exec b]) ∧
    (∀ (r : RecentlyUsed) (href added modified visited app_name exec : String)
      (mime : Option String),
      (∀ b ∈ r.bookmarks, b.href ≠ href) →
      (update_core r href added modified visited app_name exec mime).bookmarks =
        r.bookmarks ++ [fresh_bookmark href added modified visited app_name exec mime]) := by
  constructor
  · intro r href added modified visited app_name exec mime b hp hb hk
    rw [update_core_found r href added modified visited app_name exec mime hp hb hk]
  · intro r href added modified visited app_name exec mime h
    rw [update_core_not_found r href added modified visited app_name exec mime h]

/-- C2, witness: the amended theorem applied to `sampleReg2`. -/
theorem C2_witness :
    (update_core sampleReg2 "file:///tmp/a.txt" "A2" "M2" "V2" "org.app" "run"
        none).bookmarks =
      sampleReg2.bookmarks.filter (fun x => x.href != "file:///tmp/a.txt") ++
        [found_update "A2" "M2" "V2" "org.app" "run"
          { href := "file:///tmp/a.txt", added := "A1", modified := "M1",
            visited := "V1", info := none }] :=
  C2_move_to_end.1 sampleReg2 "file:///tmp/a.txt" "A2" "M2" "V2" "org.app" "run" none
    { href := "file:///tmp/a.txt", added := "A1", modified := "M1", visited := "V1",
      info := none }
    (by decide) (by decide) (by decide)

/-- C6: merging an event whose href matches no existing bookmark appends
exactly one new Bookmark at the end, carrying the computed timestamps and the
resolved href, with owner `"http://freedesktop.org"`, the inferred optional
mime type, and exactly one Application `{name, exec, modified, count := 1}`. -/
theorem C6_new_entry (r : RecentlyUsed)
    (href added modified visited app_name exec : String) (mime : Option String)
    (h : ∀ b ∈ r.bookmarks, b.href ≠ href) :
    (update_core r href added modified visited app_name exec mime).bookmarks =
      r.bookmarks ++
        [{ href := href, added := added, modified := modified, visited := visited,
           info := some { metadata :=
             { owner := "http://freedesktop.org",
               mime_type := mime.map MimeType.mk,
               applications := { applications :=
                 [{ name := app_name, exec := exec, modified := modified,
                    count := 1 }] } } } }] := by
  rw [update_core_not_found r href added modified visited app_name exec mime h]
  rfl

/-- C6, witness: a never-seen path on `sampleReg1`. -/
theorem C6_witness :
    (update_core sampleReg1 "file:///tmp/new.txt" "A9" "M9" "V9" "org.new" "run-n"
        (some "text/plain")).bookmarks =
      sampleReg1.bookmarks ++
        [{ href := "file:///tmp/new.txt", added := "A9", modified := "M9", visited := "V9",
           info := some { metadata :=
             { owner := "http://freedesktop.org",
               mime_type := (some "text/plain").map MimeType.mk,
               applications := { applications :=
                 [{ name := "org.new", exec := "run-n", modified := "M9",
                    count := 1 }] } } } }] :=
  C6_new_entry sampleReg1 "file:///tmp/new.txt" "A9" "M9" "V9" "org.new" "run-n"
    (some "text/plain") (by decide)

/-- C7: the merge preserves key uniqueness (no two Bookmarks share an href,
no two Applications under one Bookmark share a name), and consequently the
invariant holds after any sequence of recorded accesses starting from the
empty registry. -/
theorem C7_key_uniqueness :
    (∀ (r : RecentlyUsed) (href added modified visited app_name exec : String)
      (mime : Option String),
      registryInv r = true →
      registryInv (update_core r href added modified visited app_name exec mime) = true) ∧
    (∀ events : List AccessEvent,
      registryInv (applyEvents { bookmarks := [] } events) = true) := by
  refine ⟨update_core_registryInv, ?_⟩
  have key : ∀ (events : List AccessEvent) (r : RecentlyUsed),
      registryInv r = true → registryInv (applyEvents r events) = true := by
    intro events
    induction events with
    | nil => intro r h; exact h
    | cons e es ih =>
      intro r h
      exact ih (applyEvent r e)
        (update_core_registryInv r e.href e.added e.modified e.visited e.app_name
          e.exec e.mime h)
  exact fun events => key events { bookmarks := [] } rfl

/-- C7, witness: preservation applied to `sampleReg1`. -/
theorem C7_witness :
    registryInv (update_core sampleReg1 "file:///tmp/a.txt" "A2" "M2" "V2" "org.other"
      "run-o" none) = true :=
  C7_key_uniqueness.1 sampleReg1 "file:///tmp/a.txt" "A2" "M2" "V2" "org.other" "run-o"
    none (by decide)

/-- C8: merging onto an existing Bookmark whose `info` is absent overwrites
the three timestamps but leaves `info` absent: no Info/Metadata/Applications
subtree is synthesized and no Application entry is recorded for the event. -/
theorem C8_info_left_absent (r : RecentlyUsed)
    (href added modified visited app_name exec : String) (mime : Option String)
    (b : Bookmark)
    (hp : r.bookmarks.Pairwise (fun x y => x.href ≠ y.href))
    (hb : b ∈ r.bookmarks) (hk : b.href = href) (hinfo : b.info = none) :
    (update_core r href added modified visited app_name exec mime).bookmarks =
      r.bookmarks.filter (fun x => x.href != href) ++
        [{ href := b.href, added := added, modified := modified, visited := visited,
           info := none }] := by
  rw [update_core_found r href added modified visited app_name exec mime hp hb hk]
  simp [found_update, hinfo]

/-- C8, witness: applied to `sampleReg2`, whose target bookmark has no info. -/
theorem C8_witness :
    (update_core sampleReg2 "file:///tmp/a.txt" "A2" "M2" "V2" "org.app" "run"
        none).bookmarks =
      sampleReg2.bookmarks.filter (fun x => x.href != "file:///tmp/a.txt") ++
        [{ href := "file:///tmp/a.txt", added := "A2", modified := "M2", visited := "V2",
           info := none }] :=
  C8_info_left_absent sampleReg2 "file:///tmp/a.txt" "A2" "M2" "V2" "org.app" "run" none
    { href := "file:///tmp/a.txt", added := "A1", modified := "M1", visited := "V1",
      info := none }
    (by decide) (by decide) (by decide) (by decide)

/-- C10: when the merge finds an existing Application with the event's name,
the stored `exec` is preserved: every application named `app_name` in the
final (updated) bookmark carries the previously stored `exec`, for any exec
argument supplied with the new event. -/
theorem C10_exec_preserved (r : RecentlyUsed)
    (href added modified visited app_name exec : String) (mime : Option String)
    (b : Bookmark) (i : Info) (a : Application)
    (hp : r.bookmarks.Pairwise (fun x y => x.href ≠ y.href))
    (hb : b ∈ r.bookmarks) (hk : b.href = href)
    (hinfo : b.info = some i)
    (hq : i.metadata.applications.applications.Pairwise (fun x y => x.name ≠ y.name))
    (ha : a ∈ i.metadata.applications.applications) (hn : a.name = app_name) :
    ∃ (b' : Bookmark) (i' : Info),
      (update_core r href added modified visited app_name exec mime).bookmarks.getLast?
        = some b' ∧
      b'.info = some i' ∧
      ∀ x ∈ i'.metadata.applications.applications, x.name = app_name → x.exec = a.exec := by
  refine ⟨found_update added modified visited app_name exec b,
    { metadata := { i.metadata with applications := { applications :=
        (bump_apps app_name exec modified i.metadata.applications.applications) } } },
    ?_, ?_, ?_⟩
  · rw [update_core_found r href added modified visited app_name exec mime hp hb hk]
    exact List.getLast?_concat _
  · simp [found_update, hinfo]
  · show ∀ x ∈ bump_apps app_name exec modified i.metadata.applications.applications,
      x.name = app_name → x.exec = a.exec
    rw [bump_apps_found app_name exec modified hq ha hn]
    intro x hx hxn
    rcases List.mem_append.mp hx with hx | hx
    · rcases List.mem_filter.mp hx with ⟨-, hxname⟩
      exact absurd hxn (by simpa [bne_iff_ne] using hxname)
    · rcases List.mem_singleton.mp hx with rfl
      rfl

/-- C10, witness: applied to `sampleReg1` with a different event exec. -/
theorem C10_witness :
    ∃ (b' : Bookmark) (i' : Info),
      (update_core sampleReg1 "file:///tmp/a.txt" "A2" "M2" "V2" "org.app" "run-other"
        none).bookmarks.getLast? = some b' ∧
      b'.info = some i' ∧
      ∀ x ∈ i'.metadata.applications.applications, x.name = "org.app" →
        x.exec = "run-a" :=
  C10_exec_preserved sampleReg1 "file:///tmp/a.txt" "A2" "M2" "V2" "org.app" "run-other"
    none
    { href := "file:///tmp/a.txt", added := "A1", modified := "M1", visited := "V1",
      info := some { metadata :=
        { owner := "http://freedesktop.org",
          mime_type := some { mime_type := "text/plain" },
          applications := { applications :=
            [{ name := "org.app", exec := "run-a", modified := "M1", count := 1 }] } } } }
    { metadata :=
      { owner := "http://freedesktop.org",
        mime_type := some { mime_type := "text/plain" },
        applications := { applications :=
          [{ name := "org.app", exec := "run-a", modified := "M1", count := 1 }] } } }
    { name := "org.app", exec := "run-a", modified := "M1", count := 1 }
    (by decide) (by decide) (by decide) (by decide) (by decide) (by decide) (by decide)

/-! ### Decimal round-trip -/

theorem digitChar_spec : ∀ d : Nat, d < 10 →
    charDigit (digitChar d) = d ∧ (digitChar d).isDigit = true := by decide

theorem decAux_spec : ∀ (fuel n : Nat), n < 10 ^ fuel →
    (decAux fuel n).all Char.isDigit = true ∧
    ∀ acc : Nat, (decAux fuel n).foldl (fun a c => a * 10 + charDigit c) acc =
      acc * 10 ^ (decAux fuel n).length + n := by
  intro fuel
  induction fuel with
  | zero =>
    intro n hn
    interval_cases n
    exact ⟨rfl, fun acc => by simp [decAux]⟩
  | succ f ih =>
    intro n hn
    by_cases h0 : n = 0
    · subst h0
      exact ⟨by simp [decAux], fun acc => by simp [decAux]⟩
    · have hdiv : n / 10 < 10 ^ f := by
        rw [Nat.div_lt_iff_lt_mul (by norm_num)]
        calc n < 10 ^ (f + 1) := hn
        _ = 10 ^ f * 10 := by ring
      obtain ⟨hall, hfold⟩ := ih (n / 10) hdiv
      have hmod : n % 10 < 10 := Nat.mod_lt _ (by norm_num)
      obtain ⟨hcd, hdig⟩ := digitChar_spec (n % 10) hmod
      constructor
      · simp only [decAux, if_neg h0, List.all_append, hall, Bool.true_and, List.all_cons,
          List.all_nil, Bool.and_true]
        exact hdig
      · intro acc
        simp only [decAux, if_neg h0, List.foldl_append, List.foldl_cons, List.foldl_nil,
          List.length_append, List.length_cons, List.length_nil]
        rw [hfold acc, hcd]
        have hpow : acc * 10 ^ ((decAux f (n / 10)).length + (0 + 1)) =
            (acc * 10 ^ (decAux f (n / 10)).length) * 10 := by ring
        rw [hpow]
        have hdm := Nat.div_add_mod n 10
        omega

theorem decAux_ne_nil (fuel n : Nat) (h0 : n ≠ 0) : decAux (fuel + 1) n ≠ [] := by
  simp [decAux, if_neg h0]

theorem parse_u32_roundtrip (n : Nat) (h : n < 2 ^ 32) :
    parse_u32 (u32_to_string n) = some n := by
  by_cases h0 : n = 0
  · subst h0; decide
  · have hlt : n < 10 ^ 10 := by
      calc n < 2 ^ 32 := h
      _ < 10 ^ 10 := by norm_num
    obtain ⟨hall, hfold⟩ := decAux_spec 10 n hlt
    have hne := decAux_ne_nil 9 n h0
    unfold u32_to_string
    rw [if_neg h0]
    unfold parse_u32
    rw [List.toList_asString]
    cases hd : decAux 10 n with
    | nil => exact absurd hd hne
    | cons c cs =>
      rw [hd] at hall hfold
      simp only [hall, if_pos]
      rw [show ((c :: cs).foldl (fun a c => a * 10 + charDigit c) 0) = n by
        have := hfold 0; simpa using this]
      rw [if_pos h]

/-! ### Round-trip of the writer through the spec-modelled reader -/

theorem parseApplication_applicationXml (app : Application) (h : app.count < 2 ^ 32) :
    parseApplication (applicationXml app) = some app := by
  have heq : parseApplication (applicationXml app) =
      (parse_u32 (u32_to_string app.count)).map
        (fun c => { name := app.name, exec := app.exec, modified := app.modified,
                    count := c }) := rfl
  rw [heq, parse_u32_roundtrip app.count h]
  rfl

theorem parseAll_applications (apps : List Application)
    (h : ∀ a ∈ apps, a.count < 2 ^ 32) :
    parseAll parseApplication (apps.map applicationXml) = some apps := by
  induction apps with
  | nil => rfl
  | cons a as ih =>
    simp only [List.map_cons, parseAll,
      parseApplication_applicationXml a (h a (List.mem_cons_self a as)),
      ih (fun x hx => h x (List.mem_cons_of_mem a hx))]

theorem parseApplications_applicationsXml (apps : Applications)
    (h : ∀ a ∈ apps.applications, a.count < 2 ^ 32) :
    parseApplications (applicationsXml apps) = some apps := by
  have heq : parseApplications (applicationsXml apps) =
      (parseAll parseApplication (apps.applications.map applicationXml)).map
        Applications.mk := rfl
  rw [heq, parseAll_applications apps.applications h]
  rfl

theorem parseMetadata_metadataXml (m : Metadata)
    (h : ∀ a ∈ m.applications.applications, a.count < 2 ^ 32) :
    parseMetadata (metadataXml m) = some m := by
  obtain ⟨ow, mtO, apps⟩ := m
  have hA : parseApplications (applicationsXml apps) = some apps :=
    parseApplications_applicationsXml apps h
  cases mtO with
  | none =>
    have hc1 : childNamed "mime:mime-type" [applicationsXml apps] = none := rfl
    have hc2 : childNamed "bookmark:applications" [applicationsXml apps] =
      some (applicationsXml apps) := rfl
    simp only [metadataXml, List.nil_append]
    simp only [parseMetadata, lookupAttr, List.find?, hc1, hc2, hA]
    simp
  | some mt =>
    have hc1 : childNamed "mime:mime-type"
        [Xml.elem "mime:mime-type" [("type", mt.mime_type)] true [],
         applicationsXml apps] =
      some (Xml.elem "mime:mime-type" [("type", mt.mime_type)] true []) := rfl
    have hc2 : childNamed "bookmark:applications"
        [Xml.elem "mime:mime-type" [("type", mt.mime_type)] true [],
         applicationsXml apps] = some (applicationsXml apps) := rfl
    simp only [metadataXml, List.cons_append, List.nil_append]
    simp only [parseMetadata, lookupAttr, List.find?, hc1, hc2, hA, parseMimeType]
    simp

theorem parseInfo_infoXml (i : Info)
    (h : ∀ a ∈ i.metadata.applications.applications, a.count < 2 ^ 32) :
    parseInfo (infoXml i) = some i := by
  obtain ⟨m⟩ := i
  have hc : childNamed "metadata" [metadataXml m] = some (metadataXml m) := rfl
  simp only [infoXml, parseInfo, hc, parseMetadata_metadataXml m h]
  simp

theorem parseBookmark_bookmarkXml (b : Bookmark)
    (h : ∀ j ∈ b.info.toList, ∀ a ∈ j.metadata.applications.applications,
      a.count < 2 ^ 32) :
    parseBookmark (bookmarkXml b) = some b := by
  obtain ⟨hr, ad, mo, vi, infoO⟩ := b
  cases infoO with
  | none =>
    have hskel : parseBookmark (bookmarkXml
        { href := hr, added := ad, modified := mo, visited := vi, info := none }) =
      some { href := hr, added := ad, modified := mo, visited := vi, info := none } := rfl
    exact hskel
  | some i =>
    have hi : ∀ a ∈ i.metadata.applications.applications, a.count < 2 ^ 32 := by
      intro a ha
      exact h i (by simp) a ha
    have hc : childNamed "info" [infoXml i] = some (infoXml i) := rfl
    simp only [bookmarkXml, parseBookmark, lookupAttr, List.find?, hc,
      parseInfo_infoXml i hi]
    simp

theorem parseAll_bookmarks (bs : List Bookmark)
    (h : ∀ b ∈ bs, ∀ j ∈ b.info.toList, ∀ a ∈ j.metadata.applications.applications,
      a.count < 2 ^ 32) :
    parseAll parseBookmark (bs.map bookmarkXml) = some bs := by
  induction bs with
  | nil => rfl
  | cons b rest ih =>
    simp only [List.map_cons, parseAll,
      parseBookmark_bookmarkXml b (h b (List.mem_cons_self b rest)),
      ih (fun x hx => h x (List.mem_cons_of_mem b hx))]

/-- C3: round-trip of the codec: parsing the element tree rendered by the
writer reproduces the Registry exactly, for any registry whose counts are in
`u32` range (all are, since the Rust field has type `u32`): with or without
`info`, with or without a mime type, with any list of applications. The
reader is modelled from the spec (§4.3) because `parse_file` delegates to the
external `quick_xml` deserializer. -/
theorem C3_parse_render_roundtrip (r : RecentlyUsed) (h : countsOk r = true) :
    parseXbel (xbelXml r) = some r := by
  obtain ⟨bs⟩ := r
  have h' : ∀ b ∈ bs, ∀ j ∈ b.info.toList,
      ∀ a ∈ j.metadata.applications.applications, a.count < 2 ^ 32 := by
    intro b hb j hj a ha
    have hball := (List.all_eq_true.mp h) b hb
    have hbj : b.info = some j := by
      cases hbinfo : b.info with
      | none => rw [hbinfo] at hj; cases hj
      | some j' =>
        rw [hbinfo] at hj
        simp only [Option.toList_some, List.mem_singleton] at hj
        rw [hj]
    rw [hbj] at hball
    have hcount := (List.all_eq_true.mp hball) a ha
    exact of_decide_eq_true hcount
  simp only [xbelXml, parseXbel, parseAll_bookmarks bs h']
  simp

/-- C3, witness: the round-trip evaluated on a two-bookmark registry (one
with full info and mime type, one without info). -/
theorem C3_witness :
    countsOk { bookmarks := sampleReg1.bookmarks ++ sampleReg2.bookmarks } = true ∧
    parseXbel (xbelXml { bookmarks := sampleReg1.bookmarks ++ sampleReg2.bookmarks }) =
      some { bookmarks := sampleReg1.bookmarks ++ sampleReg2.bookmarks } :=
  ⟨by decide, C3_parse_render_roundtrip
    { bookmarks := sampleReg1.bookmarks ++ sampleReg2.bookmarks } (by decide)⟩

/-! ### The writer meets the schema contract -/

theorem appElemSpec_applicationXml (app : Application) :
    AppElemSpec app (applicationXml app) := ⟨rfl, rfl, rfl, rfl⟩

theorem forall2_appElemSpec (apps : List Application) :
    List.Forall₂ AppElemSpec apps (apps.map applicationXml) := by
  induction apps with
  | nil => exact List.Forall₂.nil
  | cons a as ih => exact List.Forall₂.cons (appElemSpec_applicationXml a) ih

theorem metadataElemSpec_metadataXml (m : Metadata) :
    MetadataElemSpec m (metadataXml m) := by
  obtain ⟨ow, mtO, apps⟩ := m
  cases mtO with
  | none =>
    exact ⟨rfl, rfl, rfl, apps.applications.map applicationXml,
      forall2_appElemSpec apps.applications, by simp [metadataXml, applicationsXml]⟩
  | some mt =>
    exact ⟨rfl, rfl, rfl, apps.applications.map applicationXml,
      forall2_appElemSpec apps.applications, by simp [metadataXml, applicationsXml]⟩

theorem bookmarkElemSpec_bookmarkXml (b : Bookmark) :
    BookmarkElemSpec b (bookmarkXml b) := by
  obtain ⟨hr, ad, mo, vi, infoO⟩ := b
  cases infoO with
  | none => exact ⟨rfl, rfl, rfl, rfl⟩
  | some i =>
    exact ⟨rfl, rfl, rfl, metadataXml i.metadata, rfl,
      metadataElemSpec_metadataXml i.metadata⟩

/-- C5: for every Registry the writer emits the exact fixed schema of §4.3:
root `xbel` element with `version="1.0"` and the two fixed namespace
declarations; one `bookmark` element per Bookmark with attributes in the
fixed order `href, added, modified, visited`; when info is present a nested
`info`/`metadata` element with `owner` attribute, an optional self-closing
namespaced mime-type element, and a namespaced applications wrapper with one
self-closing namespaced application element per Application with attributes
in the fixed order `name, exec, modified, count`; absent optional structures
are omitted entirely. -/
theorem C5_exact_schema (r : RecentlyUsed) : WriterSchemaSpec r (xbelXml r) := by
  refine ⟨rfl, rfl, rfl, ?_⟩
  show List.Forall₂ BookmarkElemSpec r.bookmarks (r.bookmarks.map bookmarkXml)
  induction r.bookmarks with
  | nil => exact List.Forall₂.nil
  | cons b bs ih => exact List.Forall₂.cons (bookmarkElemSpec_bookmarkXml b) ih

/-! ### The rendered text and the XML declaration -/

set_option maxRecDepth 100000 in
/-- `custom_write`'s output is the fixed root opening tag followed by the
rendered bookmarks and the closing tag. -/
theorem custom_write_as_append (r : RecentlyUsed) :
    custom_write r =
      xbelOpenTag ++ (renderXmlList (r.bookmarks.map bookmarkXml) ++ "</xbel>") := by
  have e1 : ("</" : String) ++ ("xbel" ++ ">") = "</xbel>" := by decide
  have e2 : ("<" : String) ++ "xbel" ++ renderAttrs
      [("version", "1.0"),
       ("xmlns:bookmark", "http://www.freedesktop.org/standards/desktop-bookmarks"),
       ("xmlns:mime", "http://www.freedesktop.org/standards/shared-mime-info")] ++ ">" =
      xbelOpenTag := by decide
  simp only [custom_write, xbelXml, renderXml]
  rw [String.append_assoc, String.append_assoc, e1, String.append_assoc, e2]

set_option maxRecDepth 100000 in
/-- C4, counterexample: the claim asserts every rendered output begins with
the literal XML declaration. On the empty registry the output's leading
characters are `<xbel version=...`, not the declaration: `custom_write`
(`src/custom_writer.rs`) never writes a `BytesDecl`, it starts directly with
`create_element("xbel")`. -/
theorem C4_counterexample :
    (custom_write { bookmarks := [] }).toList.take xmlDecl.length ≠ xmlDecl.toList := by
  rw [custom_write_as_append { bookmarks := [] }]
  have h0 : renderXmlList (List.map bookmarkXml ([] : List Bookmark)) = "" := by
    simp [renderXmlList]
  rw [h0]
  decide

set_option maxRecDepth 100000 in
/-- C4 (amended): for every Registry the rendered XML text begins directly
with the root element's opening tag `<xbel version="1.0" ...>`; no XML
declaration is emitted, so the output never begins with
`<?xml version="1.0" encoding="UTF-8"?>`. -/
theorem C4_no_xml_declaration (r : RecentlyUsed) :
    (∃ rest, custom_write r = xbelOpenTag ++ rest) ∧
    (custom_write r).toList.take xmlDecl.length ≠ xmlDecl.toList := by
  refine ⟨⟨renderXmlList (r.bookmarks.map bookmarkXml) ++ "</xbel>",
    custom_write_as_append r⟩, ?_⟩
  rw [custom_write_as_append r]
  have ht : (xbelOpenTag ++
      (renderXmlList (r.bookmarks.map bookmarkXml) ++ "</xbel>")).toList
      = xbelOpenTag.toList ++
        (renderXmlList (r.bookmarks.map bookmarkXml) ++ "</xbel>").toList := rfl
  rw [ht, List.take_append_of_le_length (by decide)]
  decide

/-! ### Error handling of the orchestrator -/

/-- C9: with a successfully parsed registry, the merge step returns the Path
error exactly when the target path yields no `file://` URI; when the href is
resolved, it returns a Metadata error exactly when the metadata call or one
of the three timestamp reads fails; and on any failure the registry file's
content is left unchanged (the function returns before serializing and
writing). -/
theorem C9_failure_modes :
    (∀ (parsed : RecentlyUsed) (href_result : Option String)
       (stat_result : Except Nat Unit)
       (created_result modified_result accessed_result : Except Nat String)
       (app_name exec : String) (mime : Option String),
      (update_recently_used (.ok parsed) href_result stat_result created_result
          modified_result accessed_result app_name exec mime = .error .path ↔
        href_result = none) ∧
      (href_result.isSome = true →
        ((∃ e, update_recently_used (.ok parsed) href_result stat_result created_result
            modified_result accessed_result app_name exec mime = .error (.metadata e)) ↔
          (stat_result.isOk = false ∨ created_result.isOk = false ∨
           modified_result.isOk = false ∨ accessed_result.isOk = false)))) ∧
    (∀ (file_content : String) (serialize : RecentlyUsed → Except XbelError String)
       (parse_result : Except XbelError RecentlyUsed) (href_result : Option String)
       (stat_result : Except Nat Unit)
       (created_result modified_result accessed_result : Except Nat String)
       (app_name exec : String) (mime : Option String) (e : XbelError),
      update_recently_used parse_result href_result stat_result created_result
          modified_result accessed_result app_name exec mime = .error e →
      (run_update file_content serialize parse_result href_result stat_result
          created_result modified_result accessed_result app_name exec mime).1 =
        file_content) := by
  constructor
  · intro parsed href_result stat_result created_result modified_result accessed_result
      app_name exec mime
    cases href_result with
    | none => simp [update_recently_used]
    | some h =>
      cases stat_result with
      | error es =>
        simp [update_recently_used, Except.isOk, Except.toBool]
      | ok u =>
        cases created_result with
        | error ec => simp [update_recently_used, Except.isOk, Except.toBool]
        | ok cr =>
          cases modified_result with
          | error em => simp [update_recently_used, Except.isOk, Except.toBool]
          | ok mr =>
            cases accessed_result with
            | error ea => simp [update_recently_used, Except.isOk, Except.toBool]
            | ok ar => simp [update_recently_used, Except.isOk, Except.toBool]
  · intro file_content serialize parse_result href_result stat_result created_result
      modified_result accessed_result app_name exec mime e he
    simp only [run_update, he]

/-- C9, witness: an unresolvable path yields the Path error and leaves the
file content unchanged; a failing timestamp read yields a Metadata error. -/
theorem C9_witness :
    ((update_recently_used (.ok sampleReg1) none (.ok ()) (.ok "A") (.ok "M") (.ok "V")
        "org.app" "run" none = .error .path) ∧
      (∃ e, update_recently_used (.ok sampleReg1) (some "file:///tmp/a.txt") (.ok ())
        (.error 5) (.ok "M") (.ok "V") "org.app" "run" none = .error (.metadata e))) ∧
    (run_update "old-content" (fun _ => .ok "new-content") (.ok sampleReg1) none (.ok ())
        (.ok "A") (.ok "M") (.ok "V") "org.app" "run" none).1 = "old-content" :=
  ⟨⟨(C9_failure_modes.1 sampleReg1 none (.ok ()) (.ok "A") (.ok "M") (.ok "V")
      "org.app" "run" none).1.mpr rfl,
    (C9_failure_modes.1 sampleReg1 (some "file:///tmp/a.txt") (.ok ()) (.error 5)
      (.ok "M") (.ok "V") "org.app" "run" none).2 rfl |>.mpr (by simp [Except.isOk, Except.toBool])⟩,
   C9_failure_modes.2 "old-content" (fun _ => .ok "new-content") (.ok sampleReg1) none
     (.ok ()) (.ok "A") (.ok "M") (.ok "V") "org.app" "run" none .path rfl⟩
